import Mathlib

/-!
# Verification of the go-simple-fileserver request pipeline

A shallow embedding of the `avto-dev/go-simple-fileserver` repository:
the path resolver of `FileServer.ServeHTTP` (fileserver.go), the error
handler chain (`handleError`, errors.go), the TTL cache built on
`patrickmn/go-cache` (cache/cache.go), and `NewFileServer`.

Strings are modelled as `List Char`; byte-level details of UTF-8 do not
matter for any property proved here because Go's path functions operate
on `/` and `.` which are one byte in both encodings. The host platform
is Linux, where `filepath.Separator` is `'/'` and `filepath.FromSlash`
is the identity. `time.Time`/`time.Duration` values are modelled as
`Int` nanoseconds (`UnixNano`).
-/

namespace GoSimpleFileserver

/-- Strings, modelled as lists of characters. -/
abbrev Str := List Char

/-- `strings.HasPrefix s p` : does `s` start with `p`? -/
def strStartsWith : Str → Str → Bool
  | _, [] => true
  | [], _ :: _ => false
  | c :: s, d :: p => c == d && strStartsWith s p

/-- `strings.HasSuffix s p` : does `s` end with `p`? -/
def strEndsWith (s p : Str) : Bool :=
  strStartsWith s.reverse p.reverse

/-- `strings.Contains s sub` : does `sub` occur inside `s`? -/
def strContains : Str → Str → Bool
  | [], sub => sub.isEmpty
  | c :: s, sub => strStartsWith (c :: s) sub || strContains s sub

/-! ## Go `path.Clean`, `path.Join`, `filepath.Base`

`path.Clean` is implemented through its well-known segment-stack
formulation: split the path on `'/'`, process segments left to right
with a stack (skip empty and `"."` segments; on `".."` pop a poppable
segment, or drop the `".."` for a rooted path, or keep it for a
relative one), and re-join. This is extensionally the algorithm of
Go's `path.Clean` (the `lazybuf` loop in path/path.go). -/

/-- Split a path on `'/'`, keeping empty segments
(`"/a//b"` ↦ `["", "a", "", "b"]`). -/
def goSplit : Str → List Str
  | [] => [[]]
  | c :: rest =>
    if c == '/' then [] :: goSplit rest
    else
      match goSplit rest with
      | [] => [[c]]
      | s :: ss => (c :: s) :: ss

/-- Join segments with `'/'` separators. -/
def joinSegs : List Str → Str
  | [] => []
  | [s] => s
  | s :: rest => s ++ '/' :: joinSegs rest

/-- The `".."` path segment. -/
def dotdot : Str := ['.', '.']

/-- The segment-stack loop of `path.Clean`. The accumulator holds the
output segments in reverse order. On a `".."` segment: pop the top
segment when one is poppable (present and not itself `".."`); otherwise
drop the `".."` when the path is rooted, and keep it when relative —
exactly the three cases of the `case path[r] == '.' && path[r+1] == '.'`
switch in Go's `path.Clean`. -/
def cleanRev (rooted : Bool) : List Str → List Str → List Str
  | acc, [] => acc
  | acc, s :: rest =>
    if s = [] ∨ s = ['.'] then cleanRev rooted acc rest
    else if s = dotdot then
      match acc with
      | [] => if rooted then cleanRev rooted [] rest else cleanRev rooted [dotdot] rest
      | top :: acc' =>
        if top = dotdot then
          if rooted then cleanRev rooted (top :: acc') rest
          else cleanRev rooted (dotdot :: top :: acc') rest
        else cleanRev rooted acc' rest
    else cleanRev rooted (s :: acc) rest

/-- Go `path.Clean`. Empty input yields `"."`; a rooted result keeps its
leading `'/'`; an empty relative result is `"."`. -/
def goClean (p : Str) : Str :=
  if p.isEmpty then ['.']
  else
    let rooted := strStartsWith p ['/']
    let segs := (cleanRev rooted [] (goSplit p)).reverse
    if rooted then '/' :: joinSegs segs
    else if segs.isEmpty then ['.'] else joinSegs segs

/-- Go `filepath.FromSlash`: the identity on Linux, where the path
separator already is `'/'`. -/
def fromSlash (p : Str) : Str := p

/-- Go `path.Join` restricted to two elements, as used by the server:
skip empty elements, join the rest with `'/'`, and `Clean` the result. -/
def goJoin (a b : Str) : Str :=
  if a.isEmpty then (if b.isEmpty then [] else goClean b)
  else goClean (a ++ '/' :: b)

/-- Go `filepath.Base` on Linux: strip trailing slashes, then keep what
follows the last `'/'`; `""` ↦ `"."`, all-slashes ↦ `"/"`. -/
def goBase (p : Str) : Str :=
  if p.isEmpty then ['.']
  else
    let q := (p.reverse.dropWhile (· == '/')).reverse
    let r := (q.reverse.takeWhile (· != '/')).reverse
    if r.isEmpty then ['/'] else r

/-! ## The path resolver of `ServeHTTP` (fileserver.go lines 525-538) -/

/-- The filesystem path `ServeHTTP` resolves a request path to, given
the configured files root and index file name: ensure a leading `'/'`
(`len(urlPath) == 0 || !strings.HasPrefix(urlPath, "/")`), append the
index file name when the path ends in `'/'` and the index name is
non-empty, then `path.Join(root, filepath.FromSlash(path.Clean(urlPath)))`. -/
def resolvedPath (root index reqPath : Str) : Str :=
  let urlPath := if reqPath.isEmpty || !strStartsWith reqPath ['/'] then '/' :: reqPath else reqPath
  let urlPath2 := if 0 < index.length && (urlPath.getLast? == some '/') then urlPath ++ index else urlPath
  goJoin root (fromSlash (goClean urlPath2))

/-- The normal-form segment list of a path: its `'/'`-separated segments
with empty and `"."` segments dropped. Two paths with the same rootedness
and the same normal-form segments denote the same file. -/
def segsNF (p : Str) : List Str :=
  (goSplit p).filter (fun s => decide (s ≠ [] ∧ s ≠ ['.']))

/-! ## Filesystem model

The filesystem is a partial map from paths to file entries. `os.Stat`
succeeds exactly on the domain of the map; a failing `Stat` is a
not-exist error (other `Stat` error kinds, which the Go code on some
paths silently ignores, have no counterpart in this model). `os.Open`
followed by `ioutil.ReadAll` succeeds exactly on regular entries
(reading an opened directory fails with `EISDIR`). -/

/-- What `os.Stat` reports about an existing path, together with the
bytes a successful read returns. `size` is `stat.Size()`. -/
structure FileInfo where
  isDir : Bool
  isRegular : Bool
  modTime : Int
  content : Str
  deriving DecidableEq, Repr

/-- `stat.Size()`: the byte length of the file's content. -/
def FileInfo.size (fi : FileInfo) : Int := fi.content.length

/-- A filesystem: a partial map from paths to entries. -/
abbrev Fs := Str → Option FileInfo

/-! ## The TTL cache (cache/cache.go over patrickmn/go-cache)

`InMemoryCache` wraps `go-cache` created with `cache.New(NoExpiration,
cleanupInterval)`. A stored value is a `*cache.Item` holding a
modification time and an `io.ReadSeeker` over the content — in the
server always a `bytes.Reader`, i.e. an immutable byte slice plus one
mutable cursor shared by everyone holding the pointer. The model keeps
the bytes (`content`) and the shared cursor (`pos`) explicitly.
`go-cache` stores each value with an absolute `Expiration` in
`UnixNano`; `Expiration ≤ 0` means "never expires". -/

/-- `cache.Item`: the value the server stores — a modification time and
the shared `bytes.Reader` (immutable bytes + one shared cursor). -/
structure CacheItem where
  modifiedTime : Int
  content : Str
  pos : Nat
  deriving DecidableEq, Repr

/-- A `go-cache` slot: the stored item and its absolute expiration
(`0` = no expiration). -/
structure StoredEntry where
  item : CacheItem
  expiration : Int
  deriving DecidableEq, Repr

/-- The cache store: an association list modelling `go-cache`'s map. -/
abbrev CacheState := List (Str × StoredEntry)

/-- Raw map lookup, ignoring expiry. -/
def rawFind : CacheState → Str → Option StoredEntry
  | [], _ => none
  | (k, e) :: rest, key => if k = key then some e else rawFind rest key

/-- Raw map store: replace the slot for the key, or add one. -/
def rawSet : CacheState → Str → StoredEntry → CacheState
  | [], key, e => [(key, e)]
  | (k, e') :: rest, key, e =>
    if k = key then (key, e) :: rest else (k, e') :: rawSet rest key e

/-- `go-cache`'s expiry test: an entry is expired when it has an
expiration (`> 0`) and the current time is strictly past it. -/
def entryExpired (now : Int) (e : StoredEntry) : Bool :=
  e.expiration > 0 && now > e.expiration

/-- `InMemoryCache.Set` at time `now`: store the item, with expiration
`now + ttl` for a positive ttl and none otherwise (the instance is
created with `NoExpiration` as its default, so `ttl = 0` also means
no expiration). -/
def cacheSet (c : CacheState) (now : Int) (key : Str) (ttl : Int) (it : CacheItem) : CacheState :=
  rawSet c key { item := it, expiration := if ttl > 0 then now + ttl else 0 }

/-- `InMemoryCache.Get` at time `now`: the stored item unless absent or
expired — an expired-but-not-yet-swept entry behaves as absent. -/
def cacheGet (c : CacheState) (now : Int) (key : Str) : Option CacheItem :=
  match rawFind c key with
  | none => none
  | some e => if entryExpired now e then none else some e.item

/-- `InMemoryCache.Count`: the number of stored entries, including
expired-but-not-yet-swept ones (`go-cache`'s `ItemCount`). -/
def cacheCount (c : CacheState) : Nat := c.length

/-- The background sweep (`go-cache`'s janitor running `DeleteExpired`):
remove every expired entry. -/
def cacheDeleteExpired (c : CacheState) (now : Int) : CacheState :=
  c.filter (fun ke => !(entryExpired now ke.2))

/-- Move the shared cursor of the reader stored under `key` — the
side effect on the cache of reading or seeking a cached entry's
`Content` through the shared `bytes.Reader`. -/
def cacheSetPos (c : CacheState) (key : Str) (pos : Nat) : CacheState :=
  c.map (fun ke =>
    if ke.1 = key then (ke.1, { ke.2 with item := { ke.2.item with pos := pos } }) else ke)

/-! ## Settings and server construction (fileserver.go lines 396-470) -/

/-- `Settings` (fileserver.go). `cacheTTL` is nanoseconds
(`time.Duration`), `cacheMaxFileSize` is `int64` bytes, `cacheMaxItems`
is `uint32` (its values stay far below `2^32` here, so plain `Nat`
carries it without wraparound). -/
structure Settings where
  filesRoot : Str
  indexFileName : Str
  errorFileName : Str
  redirectIndexFileToRoot : Bool
  allowedHTTPMethods : List Str
  cacheEnabled : Bool
  cacheTTL : Int
  cacheMaxFileSize : Int
  cacheMaxItems : Nat
  deriving DecidableEq, Repr

def defaultFallbackErrorContent : Str :=
  "<html><body><h1>Error \x7b\x7b code \x7d\x7d</h1><h2>\x7b\x7b message \x7d\x7d</h2></body></html>".data

def defaultIndexFileName : Str := "index.html".data

/-- `time.Second * 5` in nanoseconds. -/
def defaultCacheTTL : Int := 5000000000

/-- 64 KiB. -/
def defaultCacheMaxFileSize : Int := 1024 * 64

def defaultCacheMaxItems : Nat := 64

def methodGet : Str := "GET".data

/-- `FileServer` (fileserver.go). `hasCache` models `Cache != nil` — set
by `NewFileServer` exactly when caching is enabled. The error handler
stack is passed separately to the functions below, because handlers are
functions; `NewFileServer` installs `defaultErrorHandlers`. -/
structure FileServer where
  settings : Settings
  fallbackErrorContent : Str
  hasCache : Bool
  deriving DecidableEq, Repr

/-- `NewFileServer` (fileserver.go lines 426-470): fail when the root
does not exist or is not a directory, apply the defaults for empty
settings, and build the server (with a cache instance exactly when
caching is enabled). `none` models the `(nil, error)` return. -/
def newFileServer (fsys : Fs) (s : Settings) : Option FileServer :=
  match fsys s.filesRoot with
  | none => none
  | some info =>
    if !info.isDir then none
    else
      let s' : Settings :=
        { s with
          indexFileName := if s.indexFileName.isEmpty then defaultIndexFileName else s.indexFileName
          cacheTTL := if s.cacheTTL = 0 then defaultCacheTTL else s.cacheTTL
          cacheMaxFileSize := if s.cacheMaxFileSize = 0 then defaultCacheMaxFileSize else s.cacheMaxFileSize
          cacheMaxItems := if s.cacheMaxItems = 0 then defaultCacheMaxItems else s.cacheMaxItems
          allowedHTTPMethods := if s.allowedHTTPMethods.isEmpty then [methodGet] else s.allowedHTTPMethods }
      some { settings := s'
             fallbackErrorContent := defaultFallbackErrorContent
             hasCache := s'.cacheEnabled }

/-- `FileServer.CacheAvailable`: caching enabled and a cache instance
present. -/
def cacheAvailable (srv : FileServer) : Bool :=
  srv.settings.cacheEnabled && srv.hasCache

/-- `FileServer.methodIsAllowed`: membership of the method in the
configured allowed-method set (the lazily built map is just the set of
`Settings.AllowedHTTPMethods`). -/
def methodIsAllowed (srv : FileServer) (method : Str) : Bool :=
  srv.settings.allowedHTTPMethods.contains method

/-! ## Requests and responses -/

/-- The parts of an `*http.Request` the server reads: the method, the
URL path, and the `Accept` header. The modelled requests carry no Range
or conditional headers. -/
structure Request where
  method : Str
  path : Str
  accept : Str
  deriving DecidableEq, Repr

/-- The response written to the `http.ResponseWriter`:
`redirect` for `http.Redirect`, `fileContent` for `http.ServeContent`
(which serves with status 200 for our plain requests, using the name
hint and modification time shown), `page` for an explicit
`WriteHeader` + body write with the shown `Content-Type`. -/
inductive HttpResponse where
  | redirect (target : Str) (status : Nat)
  | fileContent (name : Str) (modTime : Int) (body : Str)
  | page (status : Nat) (contentType : Str) (body : Str)
  deriving DecidableEq, Repr

/-! ## Error pages (errors.go) -/

/-- `http.StatusText`: the standard reason phrase for a status code
(net/http's table), `""` for an unknown code. -/
def statusText (code : Nat) : Str :=
  (match code with
   | 100 => "Continue"
   | 101 => "Switching Protocols"
   | 102 => "Processing"
   | 103 => "Early Hints"
   | 200 => "OK"
   | 201 => "Created"
   | 202 => "Accepted"
   | 203 => "Non-Authoritative Information"
   | 204 => "No Content"
   | 205 => "Reset Content"
   | 206 => "Partial Content"
   | 207 => "Multi-Status"
   | 208 => "Already Reported"
   | 226 => "IM Used"
   | 300 => "Multiple Choices"
   | 301 => "Moved Permanently"
   | 302 => "Found"
   | 303 => "See Other"
   | 304 => "Not Modified"
   | 305 => "Use Proxy"
   | 307 => "Temporary Redirect"
   | 308 => "Permanent Redirect"
   | 400 => "Bad Request"
   | 401 => "Unauthorized"
   | 402 => "Payment Required"
   | 403 => "Forbidden"
   | 404 => "Not Found"
   | 405 => "Method Not Allowed"
   | 406 => "Not Acceptable"
   | 407 => "Proxy Authentication Required"
   | 408 => "Request Timeout"
   | 409 => "Conflict"
   | 410 => "Gone"
   | 411 => "Length Required"
   | 412 => "Precondition Failed"
   | 413 => "Request Entity Too Large"
   | 414 => "Request URI Too Long"
   | 415 => "Unsupported Media Type"
   | 416 => "Requested Range Not Satisfiable"
   | 417 => "Expectation Failed"
   | 418 => "I" ++ String.singleton (Char.ofNat 39) ++ "m a teapot"
   | 421 => "Misdirected Request"
   | 422 => "Unprocessable Entity"
   | 423 => "Locked"
   | 424 => "Failed Dependency"
   | 425 => "Too Early"
   | 426 => "Upgrade Required"
   | 428 => "Precondition Required"
   | 429 => "Too Many Requests"
   | 431 => "Request Header Fields Too Large"
   | 451 => "Unavailable For Legal Reasons"
   | 500 => "Internal Server Error"
   | 501 => "Not Implemented"
   | 502 => "Bad Gateway"
   | 503 => "Service Unavailable"
   | 504 => "Gateway Timeout"
   | 505 => "HTTP Version Not Supported"
   | 506 => "Variant Also Negotiates"
   | 507 => "Insufficient Storage"
   | 508 => "Loop Detected"
   | 510 => "Not Extended"
   | 511 => "Network Authentication Required"
   | _ => "").data

/-- `strconv.Itoa` for the non-negative codes in play. -/
def itoa (n : Nat) : Str := (toString n).data

/-- The loop of `strings.ReplaceAll`, structurally recursive on a fuel
argument that always bounds the remaining string's length (so the fuel
never runs out; it only serves as the termination measure): replace the
leftmost occurrence of the pattern, continue after the replacement,
repeat. -/
def replaceAllAux : Nat → Str → Str → Str → Str
  | _, [], _, _ => []
  | 0, s, _, _ => s
  | fuel + 1, c :: rest, pat, rep =>
    if pat.isEmpty then c :: rest
    else if strStartsWith (c :: rest) pat then
      rep ++ replaceAllAux fuel (rest.drop (pat.length - 1)) pat rep
    else
      c :: replaceAllAux fuel rest pat rep

/-- `strings.ReplaceAll s pat rep` for a non-empty pattern: replace
every occurrence, leftmost first and non-overlapping. (The patterns
used here are the two fixed non-empty placeholders; for an empty
pattern this model returns `s` unchanged.) -/
def replaceAll (s pat rep : Str) : Str :=
  replaceAllAux s.length s pat rep

def codePlaceholder : Str := "\x7b\x7b code \x7d\x7d".data

def messagePlaceholder : Str := "\x7b\x7b message \x7d\x7d".data

/-- `ErrorPageTemplate.Build` (errors.go lines 26-37): substitute the
`code` placeholder with the decimal code and the `message` placeholder
with `http.StatusText(code)`. Go ranges over a two-entry map in
unspecified order; the order is immaterial because neither substituted
value contains a `'\x7b'`, so the two replacements commute, and this
model fixes the code-then-message order. -/
def errorPageTemplateBuild (t : Str) (code : Nat) : Str :=
  replaceAll (replaceAll t codePlaceholder (itoa code)) messagePlaceholder (statusText code)

def htmlContentType : Str := "text/html; charset=utf-8".data

def jsonContentType : Str := "application/json; charset=utf-8".data

/-- The body `json.NewEncoder(w).Encode(jsonError\x7bCode, Message\x7d)`
writes: the object with the numeric code and the reason phrase, followed
by the encoder's terminating newline. (No reason phrase contains a
character JSON must escape.) -/
def jsonErrorBody (code : Nat) : Str :=
  "\x7b\"code\":".data ++ itoa code ++ ",\"message\":\"".data ++ statusText code
    ++ "\"\x7d\n".data

/-! ## The error handler chain (fileserver.go `handleError`, errors.go)

A Go `ErrorHandlerFunc` may write a response and returns whether it did
(`doNotContinue`); it can also touch the cache through the server. The
model returns `some response` for "wrote a response and returned true"
and `none` for "returned false" (the shipped handlers write nothing
when they decline), threading the cache state. -/

/-- The model of `ErrorHandlerFunc`: filesystem, current time, server,
cache state, request, error code ↦ optional response and new cache
state. -/
abbrev ErrorHandler :=
  Fs → Int → FileServer → CacheState → Request → Nat → Option HttpResponse × CacheState

/-- `JSONErrorHandler` (errors.go lines 46-62): when the `Accept` header
contains `"json"`, write the JSON error body with the error code as
status and stop; otherwise decline without writing. -/
def jsonErrorHandler : ErrorHandler := fun _ _ _ c r code =>
  if strContains r.accept "json".data then
    (some (.page code jsonContentType (jsonErrorBody code)), c)
  else
    (none, c)

/-- `StaticHTMLPageErrorHandler` (errors.go lines 65-110): when an error
file name is configured, load its content — from the cache when
available and hit (reading the cached entry's shared reader from its
current cursor, which leaves the cursor at end-of-file), else from disk
(inserting the content into an available cache when the entry count is
below the maximum — with no file-size check) — and on success write the
content with placeholders substituted as an HTML page with the error
code as status; otherwise decline. -/
def staticHTMLPageErrorHandler : ErrorHandler := fun fsys now srv c _r code =>
  if 0 < srv.settings.errorFileName.length then
    let filePath := goJoin srv.settings.filesRoot srv.settings.errorFileName
    let fromCache : Option (Str × CacheState) :=
      if cacheAvailable srv then
        match cacheGet c now filePath with
        | some it => some (it.content.drop it.pos, cacheSetPos c filePath it.content.length)
        | none => none
      else none
    match fromCache with
    | some (templateContent, c') =>
      (some (.page code htmlContentType (errorPageTemplateBuild templateContent code)), c')
    | none =>
      match fsys filePath with
      | some st =>
        if st.isRegular then
          let c' :=
            if cacheAvailable srv ∧ cacheCount c < srv.settings.cacheMaxItems then
              cacheSet c now filePath srv.settings.cacheTTL
                { modifiedTime := now, content := st.content, pos := 0 }
            else c
          (some (.page code htmlContentType (errorPageTemplateBuild st.content code)), c')
        else (none, c)
      | none => (none, c)
  else (none, c)

/-- The handlers `NewFileServer` installs, in order. -/
def defaultErrorHandlers : List ErrorHandler :=
  [jsonErrorHandler, staticHTMLPageErrorHandler]

/-- The loop of `handleError`: try each handler in order, stopping at
the first that returns true; `none` when the list is exhausted. -/
def runHandlers (fsys : Fs) (now : Int) (srv : FileServer) (r : Request) (code : Nat) :
    List ErrorHandler → CacheState → Option HttpResponse × CacheState
  | [], c => (none, c)
  | h :: hs, c =>
    match h fsys now srv c r code with
    | (some resp, c') => (some resp, c')
    | (none, c') => runHandlers fsys now srv r code hs c'

/-- `FileServer.handleError` (fileserver.go lines 477-491): run the
handler chain; when no handler claims the error, write the fallback
HTML page built from `FallbackErrorContent` with the error code as
status. -/
def handleError (fsys : Fs) (now : Int) (handlers : List ErrorHandler) (srv : FileServer)
    (c : CacheState) (r : Request) (code : Nat) : HttpResponse × CacheState :=
  match runHandlers fsys now srv r code handlers c with
  | (some resp, c') => (resp, c')
  | (none, c') =>
    (.page code htmlContentType (errorPageTemplateBuild srv.fallbackErrorContent code), c')

/-! ## `ServeHTTP` (fileserver.go lines 509-585) -/

/-- The tail of `ServeHTTP` after path resolution and a cache miss
(fileserver.go lines 549-585): stat the file; serve a regular file,
first buffering it into the cache when the cache is available, the
entry count is below the maximum, and the file size is within the
maximum (the buffered `bytes.Reader` is stored and served, so
`http.ServeContent` leaves the shared stored cursor at end-of-file);
otherwise invoke the error chain with 404. (`os.Open` failing on a
path `os.Stat` accepted — the 500 branch — has no counterpart in the
filesystem model.) -/
def serveFromDisk (fsys : Fs) (now : Int) (handlers : List ErrorHandler) (srv : FileServer)
    (c : CacheState) (r : Request) (filePath : Str) : HttpResponse × CacheState :=
  match fsys filePath with
  | some st =>
    if st.isRegular then
      if cacheAvailable srv ∧ cacheCount c < srv.settings.cacheMaxItems ∧
          st.size ≤ srv.settings.cacheMaxFileSize then
        let c' := cacheSet c now filePath srv.settings.cacheTTL
          { modifiedTime := st.modTime, content := st.content, pos := 0 }
        (.fileContent (goBase filePath) st.modTime st.content,
          cacheSetPos c' filePath st.content.length)
      else
        (.fileContent (goBase filePath) st.modTime st.content, c)
    else handleError fsys now handlers srv c r 404
  | none => handleError fsys now handlers srv c r 404

/-- `FileServer.ServeHTTP` (fileserver.go lines 509-585): reject a
disallowed method with 405 through the error chain; emit the permanent
redirect for a direct index-file request when configured; resolve the
filesystem path; serve a cache hit through `http.ServeContent` (which
seeks the shared stored reader to its end and back to its start, so it
serves the full content and leaves the shared cursor at end-of-file);
otherwise serve from disk. -/
def serveHTTP (fsys : Fs) (now : Int) (handlers : List ErrorHandler) (srv : FileServer)
    (c : CacheState) (r : Request) : HttpResponse × CacheState :=
  if !methodIsAllowed srv r.method then
    handleError fsys now handlers srv c r 405
  else if srv.settings.redirectIndexFileToRoot ∧ 0 < srv.settings.indexFileName.length ∧
      strEndsWith r.path ('/' :: srv.settings.indexFileName) then
    (.redirect (r.path.take (r.path.length - srv.settings.indexFileName.length)) 301, c)
  else
    let filePath := resolvedPath srv.settings.filesRoot srv.settings.indexFileName r.path
    if cacheAvailable srv then
      match cacheGet c now filePath with
      | some it =>
        (.fileContent (goBase filePath) it.modifiedTime it.content,
          cacheSetPos c filePath it.content.length)
      | none => serveFromDisk fsys now handlers srv c r filePath
    else serveFromDisk fsys now handlers srv c r filePath

/-! ## Concrete sample data

A small configured server and filesystems, used to instantiate the
theorems below on concrete inputs. `sampleSettings` deliberately sets
`cacheMaxFileSize := 1` while `sampleFs` holds a six-byte error page. -/

def sampleSettings : Settings :=
  { filesRoot := "/r".data
    indexFileName := "index.html".data
    errorFileName := "e.html".data
    redirectIndexFileToRoot := false
    allowedHTTPMethods := [methodGet]
    cacheEnabled := true
    cacheTTL := 100
    cacheMaxFileSize := 1
    cacheMaxItems := 64 }

def sampleServer : FileServer :=
  { settings := sampleSettings
    fallbackErrorContent := defaultFallbackErrorContent
    hasCache := true }

/-- `sampleServer` with the index-file redirect enabled. -/
def sampleServerRedirect : FileServer :=
  { sampleServer with settings := { sampleSettings with redirectIndexFileToRoot := true } }

/-- `sampleServer` with a cache size limit larger than every sample file. -/
def sampleServerBig : FileServer :=
  { sampleServer with settings := { sampleSettings with cacheMaxFileSize := 100 } }

/-- A filesystem holding only the configured error page, with six bytes
of content. -/
def sampleFs : Fs := fun p =>
  if p = "/r/e.html".data then
    some { isDir := false, isRegular := true, modTime := 7, content := "abcdef".data }
  else none

/-- A filesystem holding the root directory and its index file. -/
def sampleFsRoot : Fs := fun p =>
  if p = "/r".data then some { isDir := true, isRegular := false, modTime := 0, content := [] }
  else if p = "/r/index.html".data then
    some { isDir := false, isRegular := true, modTime := 3, content := "hi".data }
  else none

/-- A GET request for a path that exists on no sample filesystem. -/
def sampleReq : Request := { method := methodGet, path := "/missing".data, accept := [] }

/-! ## Lemmas about the path model -/

theorem goSplit_ne_nil : ∀ p : Str, goSplit p ≠ []
  | [] => by simp [goSplit]
  | c :: rest => by
    simp only [goSplit]
    split
    · simp
    · cases h : goSplit rest <;> simp

theorem goSplit_cons_slash (p : Str) : goSplit ('/' :: p) = [] :: goSplit p := by
  simp [goSplit]

theorem goSplit_append : ∀ a b : Str, goSplit (a ++ '/' :: b) = goSplit a ++ goSplit b
  | [], b => by simp [goSplit]
  | c :: a, b => by
    by_cases hc : c = '/'
    · subst hc
      simp only [List.cons_append, goSplit_cons_slash, goSplit_append a b, List.nil_append]
    · have ih := goSplit_append a b
      have hc' : (c == '/') = false := by simpa using hc
      cases h : goSplit a with
      | nil => exact absurd h (goSplit_ne_nil a)
      | cons s ss =>
        simp only [List.cons_append, goSplit, hc', Bool.false_eq_true, if_false,
          List.append_eq, ih, h]

theorem goSplit_no_slash : ∀ p : Str, ∀ s ∈ goSplit p, '/' ∉ s
  | [], s, hs => by
    simp [goSplit] at hs
    simp [hs]
  | c :: rest, s, hs => by
    by_cases hc : c = '/'
    · subst hc
      rw [goSplit_cons_slash] at hs
      rcases List.mem_cons.mp hs with h | h
      · simp [h]
      · exact goSplit_no_slash rest s h
    · have hc' : (c == '/') = false := by simpa using hc
      simp only [goSplit, hc', Bool.false_eq_true, if_false] at hs
      cases h : goSplit rest with
      | nil => exact absurd h (goSplit_ne_nil rest)
      | cons s0 ss =>
        rw [h] at hs
        rcases List.mem_cons.mp hs with h1 | h1
        · subst h1
          intro hmem
          rcases List.mem_cons.mp hmem with h2 | h2
          · exact hc h2.symm
          · exact goSplit_no_slash rest s0 (h ▸ List.mem_cons_self s0 ss) h2
        · exact goSplit_no_slash rest s (h ▸ List.mem_cons_of_mem s0 h1)

theorem goSplit_of_no_slash : ∀ s : Str, '/' ∉ s → goSplit s = [s]
  | [], _ => by simp [goSplit]
  | c :: rest, h => by
    have hc : (c == '/') = false := by
      simp only [List.mem_cons] at h
      simp only [beq_eq_false_iff_ne, ne_eq]
      intro hcc
      exact h (Or.inl hcc.symm)
    have hrest : '/' ∉ rest := fun hm => h (List.mem_cons_of_mem c hm)
    simp only [goSplit, hc, Bool.false_eq_true, if_false, goSplit_of_no_slash rest hrest]

theorem goSplit_joinSegs : ∀ L : List Str, L ≠ [] → (∀ s ∈ L, '/' ∉ s) →
    goSplit (joinSegs L) = L
  | [], h, _ => absurd rfl h
  | [s], _, hs => by
    simpa [joinSegs] using goSplit_of_no_slash s (hs s (by simp))
  | s :: s2 :: rest, _, hs => by
    have ih := goSplit_joinSegs (s2 :: rest) (by simp)
      (fun t ht => hs t (List.mem_cons_of_mem s ht))
    calc goSplit (joinSegs (s :: s2 :: rest))
        = goSplit (s ++ '/' :: joinSegs (s2 :: rest)) := rfl
      _ = goSplit s ++ goSplit (joinSegs (s2 :: rest)) := goSplit_append ..
      _ = [s] ++ (s2 :: rest) := by rw [goSplit_of_no_slash s (hs s (by simp)), ih]
      _ = s :: s2 :: rest := rfl

theorem cleanRev_append (r : Bool) : ∀ (xs : List Str) (acc ys : List Str),
    cleanRev r acc (xs ++ ys) = cleanRev r (cleanRev r acc xs) ys
  | [], acc, ys => rfl
  | s :: xs, acc, ys => by
    simp only [List.cons_append, cleanRev]
    split
    · exact cleanRev_append r xs acc ys
    · split
      · split
        · split
          · exact cleanRev_append r xs _ ys
          · exact cleanRev_append r xs _ ys
        · split
          · split
            · exact cleanRev_append r xs _ ys
            · exact cleanRev_append r xs _ ys
          · exact cleanRev_append r xs _ ys
      · exact cleanRev_append r xs _ ys

theorem cleanRev_normals (r : Bool) :
    ∀ (ys : List Str) (acc : List Str),
      (∀ s ∈ ys, s ≠ [] ∧ s ≠ ['.'] ∧ s ≠ dotdot) →
      cleanRev r acc ys = ys.reverse ++ acc
  | [], acc, _ => by simp [cleanRev]
  | s :: ys, acc, h => by
    obtain ⟨h1, h2, h3⟩ := h s (by simp)
    have hrest : ∀ t ∈ ys, t ≠ [] ∧ t ≠ ['.'] ∧ t ≠ dotdot :=
      fun t ht => h t (List.mem_cons_of_mem s ht)
    simp only [cleanRev, if_neg (by tauto : ¬(s = [] ∨ s = ['.'])), if_neg h3]
    rw [cleanRev_normals r ys (s :: acc) hrest]
    simp

/-- A segment that can appear in the output of the cleaning stack:
non-empty, not `"."`, slash-free. -/
def goodSeg (s : Str) : Prop := s ≠ [] ∧ s ≠ ['.'] ∧ '/' ∉ s

theorem goodSeg_dotdot : goodSeg dotdot := by
  refine ⟨by simp [dotdot], by simp [dotdot], ?_⟩
  simp [dotdot]

theorem cleanRev_good (r : Bool) :
    ∀ (xs acc : List Str), (∀ s ∈ acc, goodSeg s) → (∀ s ∈ xs, '/' ∉ s) →
      ∀ s ∈ cleanRev r acc xs, goodSeg s
  | [], acc, hacc, _, s, hs => hacc s hs
  | x :: xs, acc, hacc, hxs, s, hs => by
    have hxrest : ∀ t ∈ xs, '/' ∉ t := fun t ht => hxs t (List.mem_cons_of_mem x ht)
    simp only [cleanRev] at hs
    split at hs
    · exact cleanRev_good r xs acc hacc hxrest s hs
    · split at hs
      · split at hs
        · split at hs
          · exact cleanRev_good r xs [] (by simp) hxrest s hs
          · exact cleanRev_good r xs [dotdot]
              (by simpa using goodSeg_dotdot) hxrest s hs
        · rename_i top acc'
          split at hs
          · split at hs
            · exact cleanRev_good r xs (top :: acc') hacc hxrest s hs
            · exact cleanRev_good r xs (dotdot :: top :: acc')
                (by
                  intro t ht
                  rcases List.mem_cons.mp ht with h | h
                  · exact h ▸ goodSeg_dotdot
                  · exact hacc t h) hxrest s hs
          · exact cleanRev_good r xs acc'
              (fun t ht => hacc t (List.mem_cons_of_mem top ht)) hxrest s hs
      · rename_i hne _
        exact cleanRev_good r xs (x :: acc)
          (by
            intro t ht
            rcases List.mem_cons.mp ht with h | h
            · subst h
              push_neg at hne
              exact ⟨hne.1, hne.2, hxs t (by simp)⟩
            · exact hacc t h) hxrest s hs

theorem cleanRev_rooted_no_dotdot :
    ∀ (xs acc : List Str), dotdot ∉ acc → dotdot ∉ cleanRev true acc xs
  | [], acc, hacc => hacc
  | x :: xs, acc, hacc => by
    simp only [cleanRev]
    split
    · exact cleanRev_rooted_no_dotdot xs acc hacc
    · split
      · split
        · simp only [if_true]
          exact cleanRev_rooted_no_dotdot xs [] (by simp)
        · rename_i top acc'
          split
          · rename_i htop
            exact absurd (htop ▸ List.mem_cons_self top acc') fun h => hacc h
          · exact cleanRev_rooted_no_dotdot xs acc'
              (fun h => hacc (List.mem_cons_of_mem top h))
      · rename_i hne hnd
        exact cleanRev_rooted_no_dotdot xs (x :: acc)
          (by
            intro h
            rcases List.mem_cons.mp h with h1 | h1
            · exact hnd h1.symm
            · exact hacc h1)

theorem strStartsWith_cons_single (c d : Char) (s : Str) :
    strStartsWith (c :: s) [d] = (c == d) := by
  simp [strStartsWith]

theorem strStartsWith_slash_iff (s : Str) :
    strStartsWith s ['/'] = true ↔ ∃ t, s = '/' :: t := by
  cases s with
  | nil => simp [strStartsWith]
  | cons c t =>
    rw [strStartsWith_cons_single]
    constructor
    · intro h
      exact ⟨t, by rw [show c = '/' from by simpa using h]⟩
    · rintro ⟨u, hu⟩
      rw [List.cons.injEq] at hu
      rw [hu.1]
      simp

theorem strStartsWith_append_left (root x : Str) (h : root ≠ []) :
    strStartsWith (root ++ x) ['/'] = strStartsWith root ['/'] := by
  cases root with
  | nil => exact absurd rfl h
  | cons c rest => rw [List.cons_append, strStartsWith_cons_single, strStartsWith_cons_single]

theorem filter_good_eq_self {L : List Str} (h : ∀ s ∈ L, s ≠ [] ∧ s ≠ ['.']) :
    L.filter (fun s => decide (s ≠ [] ∧ s ≠ ['.'])) = L := by
  rw [List.filter_eq_self]
  intro a ha
  simpa using h a ha

theorem goClean_eq_of_ne (p : Str) (hp : p ≠ []) :
    goClean p = (if strStartsWith p ['/'] then
        '/' :: joinSegs ((cleanRev (strStartsWith p ['/']) [] (goSplit p)).reverse)
      else if ((cleanRev (strStartsWith p ['/']) [] (goSplit p)).reverse).isEmpty then ['.']
      else joinSegs ((cleanRev (strStartsWith p ['/']) [] (goSplit p)).reverse)) := by
  have hpe : p.isEmpty = false := by simpa using hp
  unfold goClean
  rw [hpe]
  simp only [Bool.false_eq_true, if_false]

theorem segsNF_goClean (p : Str) :
    segsNF (goClean p) = (cleanRev (strStartsWith p ['/']) [] (goSplit p)).reverse := by
  by_cases hp : p = []
  · subst hp
    decide
  · have hgood : ∀ s ∈ (cleanRev (strStartsWith p ['/']) [] (goSplit p)).reverse, goodSeg s :=
      fun s hs =>
        cleanRev_good (strStartsWith p ['/']) (goSplit p) [] (by simp)
          (goSplit_no_slash p) s (List.mem_reverse.mp hs)
    rw [goClean_eq_of_ne p hp]
    cases hr : strStartsWith p ['/'] with
    | true =>
      rw [hr] at hgood
      rw [if_pos rfl]
      by_cases hA : (cleanRev true [] (goSplit p)).reverse = []
      · rw [hA]
        decide
      · unfold segsNF
        rw [goSplit_cons_slash, goSplit_joinSegs _ hA (fun s hs => (hgood s hs).2.2)]
        rw [List.filter_cons_of_neg (by decide)]
        exact filter_good_eq_self (fun s hs => ⟨(hgood s hs).1, (hgood s hs).2.1⟩)
    | false =>
      rw [hr] at hgood
      rw [if_neg (by simp)]
      by_cases hA : (cleanRev false [] (goSplit p)).reverse = []
      · rw [hA]
        decide
      · have hAe : (cleanRev false [] (goSplit p)).reverse.isEmpty = false := by simpa using hA
        rw [hAe]
        simp only [Bool.false_eq_true, if_false]
        unfold segsNF
        rw [goSplit_joinSegs _ hA (fun s hs => (hgood s hs).2.2)]
        exact filter_good_eq_self (fun s hs => ⟨(hgood s hs).1, (hgood s hs).2.1⟩)

theorem cleanRev_cleaned (r : Bool) {S : List Str}
    (hS : ∀ s ∈ S, s ≠ [] ∧ s ≠ ['.'] ∧ s ≠ dotdot ∧ '/' ∉ s) :
    cleanRev r [] (goSplit ('/' :: joinSegs S)) = S.reverse := by
  rw [goSplit_cons_slash]
  by_cases hSe : S = []
  · subst hSe
    simp [joinSegs, goSplit, cleanRev]
  · rw [goSplit_joinSegs S hSe (fun s hs => (hS s hs).2.2.2)]
    rw [show cleanRev r [] ([] :: S) = cleanRev r [] S from by simp [cleanRev]]
    rw [cleanRev_normals r S []
      (fun s hs => ⟨(hS s hs).1, (hS s hs).2.1, (hS s hs).2.2.1⟩)]
    simp

theorem cleanRev_cons_empty (r : Bool) (A : List Str) (X : List Str) :
    cleanRev r A ([] :: X) = cleanRev r A X := by
  simp [cleanRev]

theorem cleanRev_single_empty (r : Bool) (A : List Str) : cleanRev r A [[]] = A := by
  simp [cleanRev]

/-- C1: for every request path — in particular every path containing
`..` segments — the filesystem path `ServeHTTP` resolves (leading
separator ensured, index file name appended for directory paths,
`path.Clean` normalization, join onto the configured root) stays within
the configured root: its normal-form segment list is the root's
normal-form segment list extended by further ordinary segments, none of
which is `..` (nor empty, nor `.`), so the resolved path never escapes
the root directory. -/
theorem c1 (root index reqPath : Str) :
    ∃ rest, segsNF (resolvedPath root index reqPath) = segsNF (goClean root) ++ rest ∧
      ∀ s ∈ rest, s ≠ dotdot ∧ s ≠ [] ∧ s ≠ ['.'] := by
  set u1 : Str :=
    if reqPath.isEmpty || !strStartsWith reqPath ['/'] then '/' :: reqPath else reqPath with hu1
  set u2 : Str :=
    if 0 < index.length && (u1.getLast? == some '/') then u1 ++ index else u1 with hu2
  have hres : resolvedPath root index reqPath = goJoin root (goClean u2) := rfl
  have h1 : strStartsWith u1 ['/'] = true := by
    rw [hu1]
    by_cases h : (reqPath.isEmpty || !strStartsWith reqPath ['/']) = true
    · rw [if_pos h, strStartsWith_cons_single]
      simp
    · rw [if_neg h]
      simp only [Bool.or_eq_true, Bool.not_eq_true'] at h
      push_neg at h
      simpa using h.2
  have h2 : strStartsWith u2 ['/'] = true := by
    rw [hu2]
    by_cases h : (0 < index.length && (u1.getLast? == some '/')) = true
    · rw [if_pos h]
      obtain ⟨t, ht⟩ := (strStartsWith_slash_iff u1).mp h1
      rw [ht, List.cons_append, strStartsWith_cons_single]
      simp
    · rw [if_neg h]
      exact h1
  have hu2ne : u2 ≠ [] := by
    obtain ⟨t2, ht2⟩ := (strStartsWith_slash_iff u2).mp h2
    rw [ht2]
    simp
  have hclean : goClean u2 = '/' :: joinSegs ((cleanRev true [] (goSplit u2)).reverse) := by
    rw [goClean_eq_of_ne u2 hu2ne, h2, if_pos rfl]
  have hSP : ∀ s ∈ (cleanRev true [] (goSplit u2)).reverse,
      s ≠ [] ∧ s ≠ ['.'] ∧ s ≠ dotdot ∧ '/' ∉ s := by
    intro s hs
    have hg := cleanRev_good true (goSplit u2) [] (by simp)
      (goSplit_no_slash u2) s (List.mem_reverse.mp hs)
    have hnd : s ≠ dotdot := fun heq =>
      cleanRev_rooted_no_dotdot (goSplit u2) [] (by simp) (heq ▸ List.mem_reverse.mp hs)
    exact ⟨hg.1, hg.2.1, hnd, hg.2.2⟩
  refine ⟨(cleanRev true [] (goSplit u2)).reverse, ?_,
    fun s hs => ⟨(hSP s hs).2.2.1, (hSP s hs).1, (hSP s hs).2.1⟩⟩
  rw [hres, hclean]
  by_cases hroot : root = []
  · subst hroot
    rw [show goJoin [] ('/' :: joinSegs (cleanRev true [] (goSplit u2)).reverse) =
        goClean ('/' :: joinSegs (cleanRev true [] (goSplit u2)).reverse) from by
      simp [goJoin]]
    rw [segsNF_goClean, strStartsWith_cons_single]
    rw [show (('/' : Char) == '/') = true from by simp]
    rw [cleanRev_cleaned true hSP, List.reverse_reverse]
    rw [show segsNF (goClean []) = [] from by decide]
    simp
  · have hre : root.isEmpty = false := by simpa using hroot
    rw [show goJoin root ('/' :: joinSegs (cleanRev true [] (goSplit u2)).reverse) =
        goClean (root ++ '/' :: ('/' :: joinSegs (cleanRev true [] (goSplit u2)).reverse)) from by
      simp [goJoin, hre]]
    rw [segsNF_goClean, segsNF_goClean root]
    rw [strStartsWith_append_left _ _ hroot]
    rw [goSplit_append, goSplit_cons_slash, cleanRev_append, cleanRev_cons_empty]
    by_cases hSe : (cleanRev true [] (goSplit u2)).reverse = []
    · rw [hSe]
      rw [show joinSegs ([] : List Str) = [] from rfl]
      rw [show goSplit ([] : Str) = [[]] from rfl]
      rw [cleanRev_single_empty]
      simp
    · rw [goSplit_joinSegs _ hSe (fun s hs => (hSP s hs).2.2.2)]
      rw [cleanRev_normals _ _ _
        (fun s hs => ⟨(hSP s hs).1, (hSP s hs).2.1, (hSP s hs).2.2.1⟩)]
      simp

/-! ## Lemmas about the cache, the string helpers, and the server -/

theorem rawFind_rawSet_self : ∀ (c : CacheState) (k : Str) (e : StoredEntry),
    rawFind (rawSet c k e) k = some e
  | [], k, e => by simp [rawSet, rawFind]
  | (k1, e1) :: rest, k, e => by
    by_cases h : k1 = k
    · subst h
      simp [rawSet, rawFind]
    · simp [rawSet, rawFind, h, rawFind_rawSet_self rest k e]

theorem rawFind_rawSet_ne : ∀ (c : CacheState) (kI k : Str) (e : StoredEntry), k ≠ kI →
    rawFind (rawSet c kI e) k = rawFind c k
  | [], kI, k, e, h => by
    simp [rawSet, rawFind, Ne.symm h]
  | (k1, e1) :: rest, kI, k, e, h => by
    by_cases h1 : k1 = kI
    · subst h1
      simp [rawSet, rawFind, Ne.symm h]
    · by_cases h2 : k1 = k
      · subst h2
        simp [rawSet, rawFind, h1]
      · simp [rawSet, rawFind, h1, h2, rawFind_rawSet_ne rest kI k e h]

theorem mem_rawSet_self_eq : ∀ (c : CacheState) (k : Str) (e e' : StoredEntry),
    (c.map Prod.fst).Nodup → (k, e') ∈ rawSet c k e → e' = e
  | [], k, e, e', _, h => by
    simp [rawSet] at h
    exact h
  | (k1, e1) :: rest, k, e, e', hnd, h => by
    rw [List.map_cons, List.nodup_cons] at hnd
    by_cases hk : k1 = k
    · subst hk
      simp only [rawSet, if_pos rfl] at h
      rcases List.mem_cons.mp h with h1 | h1
      · injection h1 with h1a h1b
      · exact absurd (List.mem_map_of_mem Prod.fst h1) hnd.1
    · simp only [rawSet, if_neg hk] at h
      rcases List.mem_cons.mp h with h1 | h1
      · injection h1 with h1a h1b
        exact absurd h1a.symm hk
      · exact mem_rawSet_self_eq rest k e e' hnd.2 h1

theorem rawFind_filter_none (pred : Str × StoredEntry → Bool) :
    ∀ (l : CacheState) (k : Str),
      (∀ e, (k, e) ∈ l → pred (k, e) = false) → rawFind (l.filter pred) k = none
  | [], _, _ => rfl
  | (k1, e1) :: rest, k, h => by
    by_cases hk : k1 = k
    · have hm : (k, e1) ∈ (k1, e1) :: rest := by rw [hk]; exact List.mem_cons_self _ _
      have hpred : pred (k1, e1) = false := by rw [hk]; exact h e1 hm
      rw [List.filter_cons_of_neg (by rw [hpred]; simp)]
      exact rawFind_filter_none pred rest k (fun e he => h e (List.mem_cons_of_mem _ he))
    · rw [List.filter_cons]
      cases hp : pred (k1, e1) with
      | true =>
        simp only [if_pos rfl]
        show rawFind ((k1, e1) :: rest.filter pred) k = none
        simp only [rawFind, if_neg hk]
        exact rawFind_filter_none pred rest k (fun e he => h e (List.mem_cons_of_mem _ he))
      | false =>
        simp only [Bool.false_eq_true, if_false]
        exact rawFind_filter_none pred rest k (fun e he => h e (List.mem_cons_of_mem _ he))

theorem rawFind_cacheSetPos_ne : ∀ (c : CacheState) (kI k : Str) (p : Nat), k ≠ kI →
    rawFind (cacheSetPos c kI p) k = rawFind c k
  | [], _, _, _, _ => rfl
  | (k1, e1) :: rest, kI, k, p, h => by
    have ih := rawFind_cacheSetPos_ne rest kI k p h
    simp only [cacheSetPos, List.map_cons] at ih ⊢
    by_cases h1 : k1 = kI
    · subst h1
      rw [if_pos rfl]
      simp only [rawFind]
      rw [if_neg (fun he : k1 = k => h (he.symm.trans rfl)),
        if_neg (fun he : k1 = k => h (he.symm.trans rfl))]
      exact ih
    · rw [if_neg h1]
      simp only [rawFind]
      by_cases h2 : k1 = k
      · rw [if_pos h2, if_pos h2]
      · rw [if_neg h2, if_neg h2]
        exact ih

theorem rawFind_cacheSetPos_self : ∀ (c : CacheState) (kI : Str) (p : Nat),
    rawFind (cacheSetPos c kI p) kI =
      (rawFind c kI).map (fun e => { e with item := { e.item with pos := p } })
  | [], _, _ => rfl
  | (k1, e1) :: rest, kI, p => by
    have ih := rawFind_cacheSetPos_self rest kI p
    simp only [cacheSetPos, List.map_cons] at ih ⊢
    by_cases h1 : k1 = kI
    · subst h1
      rw [if_pos rfl]
      simp [rawFind]
    · rw [if_neg h1]
      simp only [rawFind, if_neg h1]
      exact ih

theorem entryExpired_false_of_le {now : Int} {e : StoredEntry} (h : now ≤ e.expiration) :
    entryExpired now e = false := by
  simp only [entryExpired, Bool.and_eq_false_iff, decide_eq_false_iff_not, not_lt]
  omega

theorem entryExpired_true_of {now : Int} {e : StoredEntry}
    (hpos : 0 < e.expiration) (h : e.expiration < now) : entryExpired now e = true := by
  simp only [entryExpired, Bool.and_eq_true, decide_eq_true_eq]
  exact ⟨hpos, h⟩

theorem strStartsWith_append_self : ∀ (x y : Str), strStartsWith (x ++ y) x = true
  | [], y => by cases y <;> rfl
  | c :: x, y => by
    simp only [List.cons_append, strStartsWith, beq_self_eq_true, Bool.true_and]
    exact strStartsWith_append_self x y

theorem strEndsWith_append_self (a b : Str) : strEndsWith (a ++ b) b = true := by
  unfold strEndsWith
  rw [List.reverse_append]
  exact strStartsWith_append_self b.reverse a.reverse

theorem strEndsWith_nil_of_ne (p : Str) (h : p ≠ []) : strEndsWith [] p = false := by
  obtain ⟨x, xs, hx⟩ := List.exists_cons_of_ne_nil h
  subst hx
  unfold strEndsWith
  rw [List.reverse_cons]
  obtain ⟨y, ys, hy⟩ := List.exists_cons_of_ne_nil (by simp : xs.reverse ++ [x] ≠ [])
  rw [hy]
  rfl

theorem take_append_one (pre : Str) (c : Char) (idx : Str) :
    (pre ++ c :: idx).take (pre.length + 1) = pre ++ [c] := by
  induction pre with
  | nil => simp
  | cons d pre ih => simpa using ih

theorem runHandlers_append_none (fsys : Fs) (now : Int) (srv : FileServer) (r : Request)
    (code : Nat) :
    ∀ (hs1 hs2 : List ErrorHandler) (c c1 : CacheState),
      runHandlers fsys now srv r code hs1 c = (none, c1) →
      runHandlers fsys now srv r code (hs1 ++ hs2) c = runHandlers fsys now srv r code hs2 c1
  | [], hs2, c, c1, h => by
    simp only [runHandlers] at h
    injection h with h1 h2
    rw [← h2]
    rfl
  | h0 :: hs1, hs2, c, c1, h => by
    simp only [runHandlers, List.cons_append] at h ⊢
    cases hres : h0 fsys now srv c r code with
    | mk o c' =>
      rw [hres] at h
      cases o with
      | some resp => simp at h
      | none => exact runHandlers_append_none fsys now srv r code hs1 hs2 c' c1 h

theorem serveFromDisk_fst (fsys : Fs) (now : Int) (handlers : List ErrorHandler)
    (srv : FileServer) (c : CacheState) (r : Request) (fp : Str) (st : FileInfo)
    (hst : fsys fp = some st) (hreg : st.isRegular = true) :
    (serveFromDisk fsys now handlers srv c r fp).1 =
      .fileContent (goBase fp) st.modTime st.content := by
  unfold serveFromDisk
  rw [hst]
  simp only [hreg, if_true]
  split <;> rfl

/-! ## The claims -/

/-- C8: for every key, positive ttl and item, `Set` immediately followed
by `Get` returns the item; once the ttl has elapsed `Get` reports
not-found even before any sweep (an expired-but-unswept entry behaves as
absent); and after the sweep has run the entry is no longer stored, so
`Count` (the number of stored entries) no longer includes it. `now` is a
`UnixNano` timestamp, hence non-negative; the store, being a map, has no
duplicate keys. -/
theorem c8 (c : CacheState) (now : Int) (k : Str) (ttl : Int) (it : CacheItem)
    (hnow : 0 ≤ now) (httl : 0 < ttl) (hnd : (c.map Prod.fst).Nodup) :
    cacheGet (cacheSet c now k ttl it) now k = some it ∧
    (∀ now2 : Int, now + ttl < now2 → cacheGet (cacheSet c now k ttl it) now2 k = none) ∧
    (∀ now2 : Int, now + ttl < now2 →
      rawFind (cacheDeleteExpired (cacheSet c now k ttl it) now2) k = none) := by
  have hset : rawFind (cacheSet c now k ttl it) k =
      some { item := it, expiration := now + ttl } := by
    unfold cacheSet
    rw [if_pos httl]
    exact rawFind_rawSet_self ..
  refine ⟨?_, ?_, ?_⟩
  · have hexp : entryExpired now { item := it, expiration := now + ttl } = false :=
      entryExpired_false_of_le (show now ≤ now + ttl by omega)
    simp [cacheGet, hset, hexp]
  · intro now2 h2
    have hexp : entryExpired now2 { item := it, expiration := now + ttl } = true :=
      entryExpired_true_of (show (0 : Int) < now + ttl by omega)
        (show now + ttl < now2 by omega)
    simp [cacheGet, hset, hexp]
  · intro now2 h2
    unfold cacheDeleteExpired
    apply rawFind_filter_none
    intro e he
    unfold cacheSet at he
    rw [if_pos httl] at he
    have heq : e = { item := it, expiration := now + ttl } :=
      mem_rawSet_self_eq c k _ e hnd he
    subst heq
    have hexp : entryExpired now2 { item := it, expiration := now + ttl } = true :=
      entryExpired_true_of (show (0 : Int) < now + ttl by omega)
        (show now + ttl < now2 by omega)
    simp [hexp]

/-- Witness for C8 at a concrete store, key, ttl and times. -/
theorem c8_witness :
    cacheGet (cacheSet [] 0 ['k'] 5 { modifiedTime := 0, content := [], pos := 0 }) 0 ['k'] =
      some { modifiedTime := 0, content := [], pos := 0 } ∧
    cacheGet (cacheSet [] 0 ['k'] 5 { modifiedTime := 0, content := [], pos := 0 }) 6 ['k'] =
      none ∧
    rawFind (cacheDeleteExpired
        (cacheSet [] 0 ['k'] 5 { modifiedTime := 0, content := [], pos := 0 }) 6) ['k'] =
      none := by
  have h := c8 [] 0 ['k'] 5 { modifiedTime := 0, content := [], pos := 0 }
    (by decide) (by decide) (by simp)
  exact ⟨h.1, h.2.1 6 (by decide), h.2.2 6 (by decide)⟩

/-- C5: `NewFileServer` fails exactly when the configured root does not
exist or exists but is not a directory; otherwise it returns a server.
(In the filesystem model a failing `os.Stat` is a not-exist error.) -/
theorem c5 (fsys : Fs) (s : Settings) :
    newFileServer fsys s = none ↔
      fsys s.filesRoot = none ∨
        ∃ info, fsys s.filesRoot = some info ∧ info.isDir = false := by
  cases h : fsys s.filesRoot with
  | none => simp [newFileServer, h]
  | some info =>
    cases hd : info.isDir with
    | true => simp [newFileServer, h, hd]
    | false => simp [newFileServer, h, hd]

/-- C6: a request whose method is not in the allowed-method set is
answered entirely by the error chain with code 405 — `ServeHTTP` is the
bare `handleError` call, so no redirect decision, path resolution, cache
lookup or file serving of the serving pipeline happens, whatever the
filesystem holds at the target path. -/
theorem c6 (fsys : Fs) (now : Int) (handlers : List ErrorHandler) (srv : FileServer)
    (c : CacheState) (r : Request) (h : methodIsAllowed srv r.method = false) :
    serveHTTP fsys now handlers srv c r = handleError fsys now handlers srv c r 405 := by
  unfold serveHTTP
  rw [h]
  simp

/-- Witness for C6: a POST against a GET-only server. -/
theorem c6_witness :
    methodIsAllowed sampleServer "POST".data = false ∧
    serveHTTP sampleFs 0 defaultErrorHandlers sampleServer []
        { method := "POST".data, path := "/x".data, accept := [] } =
      handleError sampleFs 0 defaultErrorHandlers sampleServer []
        { method := "POST".data, path := "/x".data, accept := [] } 405 :=
  ⟨by decide,
   c6 sampleFs 0 defaultErrorHandlers sampleServer []
     { method := "POST".data, path := "/x".data, accept := [] } (by decide)⟩

/-- C7: with the redirect flag on, a non-empty index name and an allowed
method, a request whose path ends in `"/" + indexFileName` is answered
with a 301 permanent redirect to the path with exactly the index-name
suffix removed (trailing slash and parent segments kept), the cache
untouched and nothing else done. -/
theorem c7 (fsys : Fs) (now : Int) (handlers : List ErrorHandler) (srv : FileServer)
    (c : CacheState) (pre m a : Str)
    (hm : methodIsAllowed srv m = true)
    (hflag : srv.settings.redirectIndexFileToRoot = true)
    (hidx : 0 < srv.settings.indexFileName.length) :
    serveHTTP fsys now handlers srv c
        { method := m, path := pre ++ '/' :: srv.settings.indexFileName, accept := a } =
      (.redirect (pre ++ ['/']) 301, c) := by
  unfold serveHTTP
  rw [hm]
  rw [if_neg (by simp)]
  rw [if_pos ⟨by rw [hflag], hidx, strEndsWith_append_self pre _⟩]
  have hlen : (pre ++ '/' :: srv.settings.indexFileName).length -
      srv.settings.indexFileName.length = pre.length + 1 := by
    simp only [List.length_append, List.length_cons]
    omega
  rw [hlen, take_append_one]

/-- Witness for C7: `/foo/index.html` redirects to `/foo/` with 301. -/
theorem c7_witness :
    methodIsAllowed sampleServerRedirect methodGet = true ∧
    serveHTTP sampleFs 0 defaultErrorHandlers sampleServerRedirect []
        { method := methodGet
          path := "/foo".data ++ '/' :: sampleServerRedirect.settings.indexFileName
          accept := [] } =
      (.redirect ("/foo".data ++ ['/']) 301, []) :=
  ⟨by decide,
   c7 sampleFs 0 defaultErrorHandlers sampleServerRedirect [] "/foo".data methodGet []
     (by decide) (by decide) (by decide)⟩

/-- C9: whenever the `Accept` header contains the substring `"json"`,
the JSON error handler answers with status = the error code and the JSON
body `\x7b"code": <code>, "message": <reason phrase>\x7d` (terminated by
the encoder's newline), leaving the cache untouched and returning true —
so in a chain no later handler runs, whatever follows it; when the
header does not contain `"json"` it writes nothing and returns false.
In particular the 404 body is `\x7b"code":404,"message":"Not Found"\x7d`,
and a missing-path request with `Accept: application/json` against the
sample server is answered exactly so. -/
theorem c9 (fsys : Fs) (now : Int) (srv : FileServer) (c : CacheState) (r : Request)
    (code : Nat) :
    (strContains r.accept "json".data = true →
      jsonErrorHandler fsys now srv c r code =
        (some (.page code jsonContentType (jsonErrorBody code)), c) ∧
      ∀ hs : List ErrorHandler,
        runHandlers fsys now srv r code (jsonErrorHandler :: hs) c =
          (some (.page code jsonContentType (jsonErrorBody code)), c)) ∧
    (strContains r.accept "json".data = false →
      jsonErrorHandler fsys now srv c r code = (none, c)) ∧
    jsonErrorBody 404 = "\x7b\"code\":404,\"message\":\"Not Found\"\x7d\n".data ∧
    (serveHTTP sampleFs 0 defaultErrorHandlers sampleServer []
        { method := methodGet, path := "/missing".data, accept := "application/json".data }).1 =
      .page 404 jsonContentType ("\x7b\"code\":404,\"message\":\"Not Found\"\x7d\n".data) := by
  refine ⟨fun h => ⟨?_, fun hs => ?_⟩, fun h => ?_, by decide, by decide⟩
  · simp [jsonErrorHandler, h]
  · simp [runHandlers, jsonErrorHandler, h]
  · simp [jsonErrorHandler, h]

/-- Witness for C9: the handler accepts a JSON request and declines an
HTML one at concrete inputs. -/
theorem c9_witness :
    jsonErrorHandler sampleFs 0 sampleServer []
        { method := methodGet, path := "/missing".data, accept := "application/json".data } 404 =
      (some (.page 404 jsonContentType (jsonErrorBody 404)), []) ∧
    jsonErrorHandler sampleFs 0 sampleServer []
        { method := methodGet, path := "/missing".data, accept := "text/html".data } 404 =
      (none, []) :=
  ⟨((c9 sampleFs 0 sampleServer []
      { method := methodGet, path := "/missing".data, accept := "application/json".data } 404).1
      (by decide)).1,
   (c9 sampleFs 0 sampleServer []
      { method := methodGet, path := "/missing".data, accept := "text/html".data } 404).2.1
      (by decide)⟩

/-- C4: `handleError` always answers. Handlers run in registration
order; the first one that returns true ends the chain — whatever
handlers follow it and with no fallback. When the whole chain declines
(or is empty), the engine answers with status = the error code and the
fallback HTML template with both the `code` and `message` placeholders
substituted (`ErrorPageTemplate.Build`, which replaces every occurrence
of each placeholder). -/
theorem c4 :
    (∀ (fsys : Fs) (now : Int) (srv : FileServer) (r : Request) (code : Nat)
        (hs1 : List ErrorHandler) (h : ErrorHandler) (hs2 : List ErrorHandler)
        (c c1 c2 : CacheState) (resp : HttpResponse),
      runHandlers fsys now srv r code hs1 c = (none, c1) →
      h fsys now srv c1 r code = (some resp, c2) →
      handleError fsys now (hs1 ++ h :: hs2) srv c r code = (resp, c2)) ∧
    (∀ (fsys : Fs) (now : Int) (srv : FileServer) (r : Request) (code : Nat)
        (hs : List ErrorHandler) (c c1 : CacheState),
      runHandlers fsys now srv r code hs c = (none, c1) →
      handleError fsys now hs srv c r code =
        (.page code htmlContentType (errorPageTemplateBuild srv.fallbackErrorContent code),
          c1)) := by
  constructor
  · intro fsys now srv r code hs1 h hs2 c c1 c2 resp h1 h2
    unfold handleError
    rw [runHandlers_append_none fsys now srv r code hs1 (h :: hs2) c c1 h1]
    simp only [runHandlers, h2]
  · intro fsys now srv r code hs c c1 h1
    unfold handleError
    rw [h1]

/-- Witness for C4: the default chain on a JSON request stops at the
first handler; the empty chain falls back to the built-in template. -/
theorem c4_witness :
    handleError sampleFs 0 defaultErrorHandlers sampleServer []
        { method := methodGet, path := "/missing".data, accept := "application/json".data } 404 =
      (.page 404 jsonContentType (jsonErrorBody 404), []) ∧
    handleError sampleFs 0 [] sampleServer [] sampleReq 404 =
      (.page 404 htmlContentType
        (errorPageTemplateBuild sampleServer.fallbackErrorContent 404), []) :=
  ⟨c4.1 sampleFs 0 sampleServer
      { method := methodGet, path := "/missing".data, accept := "application/json".data } 404
      [] jsonErrorHandler [staticHTMLPageErrorHandler] [] [] [] _ rfl (by decide),
   c4.2 sampleFs 0 sampleServer sampleReq 404 [] [] [] rfl⟩

theorem resolvedPath_nil_eq (root idx : Str) (h : idx ≠ []) :
    resolvedPath root idx [] = goJoin root (goClean ('/' :: idx)) := by
  have hlen : 0 < idx.length := List.length_pos.mpr h
  unfold resolvedPath
  simp [fromSlash, hlen]

theorem resolvedPath_slash_eq (root idx : Str) (h : idx ≠ []) :
    resolvedPath root idx ['/'] = goJoin root (goClean ('/' :: idx)) := by
  have hlen : 0 < idx.length := List.length_pos.mpr h
  unfold resolvedPath
  simp [fromSlash, strStartsWith, hlen]

/-- C10: a server built by `NewFileServer` has a non-empty index file
name (the default fills an empty setting), so a request with the empty
URL path resolves exactly as a request for `"/"`: the leading separator
is added, the index name appended, and the resolved path is the cleaned
`"/" + indexFileName` joined under the configured root — and an
empty-path request with an allowed method is served the root index
file's content whenever the resolved path is a regular file. -/
theorem c10 (fsys : Fs) (s : Settings) (srv : FileServer)
    (h : newFileServer fsys s = some srv) :
    srv.settings.indexFileName ≠ [] ∧
    resolvedPath srv.settings.filesRoot srv.settings.indexFileName [] =
      resolvedPath srv.settings.filesRoot srv.settings.indexFileName ['/'] ∧
    resolvedPath srv.settings.filesRoot srv.settings.indexFileName [] =
      goJoin srv.settings.filesRoot (goClean ('/' :: srv.settings.indexFileName)) ∧
    (∀ (fsys2 : Fs) (now : Int) (handlers : List ErrorHandler) (m a : Str) (st : FileInfo),
      methodIsAllowed srv m = true →
      fsys2 (resolvedPath srv.settings.filesRoot srv.settings.indexFileName []) = some st →
      st.isRegular = true →
      (serveHTTP fsys2 now handlers srv [] { method := m, path := [], accept := a }).1 =
        .fileContent
          (goBase (resolvedPath srv.settings.filesRoot srv.settings.indexFileName []))
          st.modTime st.content) := by
  have hidx : srv.settings.indexFileName ≠ [] := by
    unfold newFileServer at h
    split at h
    · exact absurd h (by simp)
    · split at h
      · exact absurd h (by simp)
      · injection h with h2
        rw [← h2]
        show (if s.indexFileName.isEmpty = true then defaultIndexFileName
          else s.indexFileName) ≠ []
        by_cases hie : s.indexFileName.isEmpty = true
        · rw [if_pos hie]
          decide
        · rw [if_neg hie]
          simpa using hie
  refine ⟨hidx, ?_, resolvedPath_nil_eq _ _ hidx, ?_⟩
  · rw [resolvedPath_nil_eq _ _ hidx, resolvedPath_slash_eq _ _ hidx]
  · intro fsys2 now handlers m a st hm hst hreg
    have hnored : strEndsWith ([] : Str) ('/' :: srv.settings.indexFileName) = false :=
      strEndsWith_nil_of_ne _ (by simp)
    have hstep : serveHTTP fsys2 now handlers srv [] { method := m, path := [], accept := a } =
        serveFromDisk fsys2 now handlers srv [] { method := m, path := [], accept := a }
          (resolvedPath srv.settings.filesRoot srv.settings.indexFileName []) := by
      unfold serveHTTP
      rw [hm]
      rw [if_neg (by simp)]
      rw [if_neg (fun hc => by rw [hnored] at hc; exact absurd hc.2.2 (by simp))]
      by_cases hca : cacheAvailable srv = true
      · rw [if_pos hca]
        rfl
      · rw [if_neg hca]
    rw [hstep]
    exact serveFromDisk_fst fsys2 now handlers srv []
      { method := m, path := [], accept := a } _ st hst hreg

/-- Witness for C10: the sample server built over the sample root
directory serves the root index file for the empty path. -/
theorem c10_witness :
    newFileServer sampleFsRoot sampleSettings = some sampleServer ∧
    sampleServer.settings.indexFileName ≠ [] ∧
    resolvedPath sampleServer.settings.filesRoot sampleServer.settings.indexFileName [] =
      resolvedPath sampleServer.settings.filesRoot sampleServer.settings.indexFileName ['/'] ∧
    (serveHTTP sampleFsRoot 0 defaultErrorHandlers sampleServer []
        { method := methodGet, path := [], accept := [] }).1 =
      .fileContent
        (goBase (resolvedPath sampleServer.settings.filesRoot
          sampleServer.settings.indexFileName []))
        3 "hi".data := by
  have hc := c10 sampleFsRoot sampleSettings sampleServer (by decide)
  exact ⟨by decide, hc.1, hc.2.1,
    hc.2.2.2 sampleFsRoot 0 defaultErrorHandlers methodGet []
      { isDir := false, isRegular := true, modTime := 3, content := "hi".data }
      (by decide) (by decide) (by decide)⟩

/-- Every entry found in the cache after `serveFromDisk` ran with an
empty error chain either was already stored with the same content, or
holds content within the configured maximum file size. -/
theorem serveFromDisk_insert_bound (fsys : Fs) (now : Int) (srv : FileServer)
    (c : CacheState) (r : Request) (fp k : Str) (e : StoredEntry)
    (hfind : rawFind ((serveFromDisk fsys now [] srv c r fp).2) k = some e) :
    (∃ e0, rawFind c k = some e0 ∧ e.item.content = e0.item.content) ∨
      (e.item.content.length : Int) ≤ srv.settings.cacheMaxFileSize := by
  unfold serveFromDisk at hfind
  cases hst : fsys fp with
  | none =>
    rw [hst] at hfind
    exact Or.inl ⟨e, by simpa [handleError, runHandlers] using hfind, rfl⟩
  | some st =>
    rw [hst] at hfind
    by_cases hreg : st.isRegular = true
    · simp only [hreg, if_true] at hfind
      by_cases hcond : cacheAvailable srv = true ∧
          cacheCount c < srv.settings.cacheMaxItems ∧
          st.size ≤ srv.settings.cacheMaxFileSize
      · rw [if_pos hcond] at hfind
        by_cases hk : k = fp
        · subst hk
          rw [rawFind_cacheSetPos_self] at hfind
          unfold cacheSet at hfind
          rw [rawFind_rawSet_self] at hfind
          simp only [Option.map_some] at hfind
          injection hfind with hfe
          right
          rw [← hfe]
          exact hcond.2.2
        · rw [rawFind_cacheSetPos_ne _ _ _ _ hk] at hfind
          unfold cacheSet at hfind
          rw [rawFind_rawSet_ne _ _ _ _ hk] at hfind
          exact Or.inl ⟨e, hfind, rfl⟩
      · rw [if_neg hcond] at hfind
        exact Or.inl ⟨e, hfind, rfl⟩
    · simp only [hreg, Bool.false_eq_true, if_false] at hfind
      exact Or.inl ⟨e, by simpa [handleError, runHandlers] using hfind, rfl⟩

/-- C2, evaluated at the failing input: with `CacheMaxFileSize = 1` and
a six-byte error page, the static error-page handler (errors.go lines
81-96) inserts a cache entry whose content has length 6 — an insertion
exceeding the configured maximum, contradicting the documented cache
size limit, which `ServeHTTP`'s own insertion enforces
(`serveFromDisk_insert_bound`, `cacheInsertionPolicy`). -/
theorem c2_bug_eval :
    (staticHTMLPageErrorHandler sampleFs 0 sampleServer [] sampleReq 404).2 =
      [("/r/e.html".data,
        { item := { modifiedTime := 0, content := "abcdef".data, pos := 0 }
          expiration := 100 })] ∧
    ¬((("abcdef".data : Str).length : Int) ≤ sampleServer.settings.cacheMaxFileSize) := by
  constructor
  · decide
  · decide

/-- The two insertion policies side by side: the insertion `ServeHTTP`
performs for ordinary content always respects
`Settings.CacheMaxFileSize` — after a request handled with an empty
error chain, every cache entry either predates the request with
unchanged content or is within the bound. The static error-page
handler's insertion, by contrast, is guarded only by the entry-count
cap: whenever the error file is configured, present, regular and missed
in an available cache with room, it inserts the file's full content
with no size check at all. -/
theorem cacheInsertionPolicy :
    (∀ (fsys : Fs) (now : Int) (srv : FileServer) (c : CacheState) (r : Request)
        (k : Str) (e : StoredEntry),
      rawFind ((serveHTTP fsys now [] srv c r).2) k = some e →
      (∃ e0, rawFind c k = some e0 ∧ e.item.content = e0.item.content) ∨
        (e.item.content.length : Int) ≤ srv.settings.cacheMaxFileSize) ∧
    (∀ (fsys : Fs) (now : Int) (srv : FileServer) (c : CacheState) (r : Request)
        (code : Nat) (st : FileInfo),
      srv.settings.errorFileName ≠ [] →
      cacheAvailable srv = true →
      cacheGet c now (goJoin srv.settings.filesRoot srv.settings.errorFileName) = none →
      fsys (goJoin srv.settings.filesRoot srv.settings.errorFileName) = some st →
      st.isRegular = true →
      cacheCount c < srv.settings.cacheMaxItems →
      (staticHTMLPageErrorHandler fsys now srv c r code).2 =
        cacheSet c now (goJoin srv.settings.filesRoot srv.settings.errorFileName)
          srv.settings.cacheTTL { modifiedTime := now, content := st.content, pos := 0 }) := by
  constructor
  · intro fsys now srv c r k e hfind
    unfold serveHTTP at hfind
    by_cases hm : methodIsAllowed srv r.method = true
    · rw [hm] at hfind
      rw [if_neg (by simp)] at hfind
      by_cases hred : srv.settings.redirectIndexFileToRoot = true ∧
          0 < srv.settings.indexFileName.length ∧
          strEndsWith r.path ('/' :: srv.settings.indexFileName) = true
      · rw [if_pos hred] at hfind
        exact Or.inl ⟨e, hfind, rfl⟩
      · rw [if_neg hred] at hfind
        by_cases hca : cacheAvailable srv = true
        · rw [if_pos hca] at hfind
          cases hget : cacheGet c now
              (resolvedPath srv.settings.filesRoot srv.settings.indexFileName r.path) with
          | some it =>
            rw [hget] at hfind
            by_cases hk : k =
                resolvedPath srv.settings.filesRoot srv.settings.indexFileName r.path
            · subst hk
              rw [rawFind_cacheSetPos_self] at hfind
              cases hraw : rawFind c
                  (resolvedPath srv.settings.filesRoot srv.settings.indexFileName r.path) with
              | none =>
                rw [hraw] at hfind
                exact absurd hfind (by simp)
              | some e0 =>
                rw [hraw] at hfind
                simp only [Option.map_some] at hfind
                injection hfind with hfe
                exact Or.inl ⟨e0, rfl, by rw [← hfe]⟩
            · rw [rawFind_cacheSetPos_ne _ _ _ _ hk] at hfind
              exact Or.inl ⟨e, hfind, rfl⟩
          | none =>
            rw [hget] at hfind
            exact serveFromDisk_insert_bound fsys now srv c r _ k e hfind
        · rw [if_neg hca] at hfind
          exact serveFromDisk_insert_bound fsys now srv c r _ k e hfind
    · rw [show methodIsAllowed srv r.method = false from by simpa using hm] at hfind
      rw [if_pos (by simp)] at hfind
      exact Or.inl ⟨e, by simpa [handleError, runHandlers] using hfind, rfl⟩
  · intro fsys now srv c r code st hname hca hmiss hst hreg hcount
    have hlen : 0 < srv.settings.errorFileName.length := List.length_pos.mpr hname
    unfold staticHTMLPageErrorHandler
    rw [if_pos hlen]
    simp [hca, hmiss, hst, hreg, hcount]

/-- `cacheInsertionPolicy` at concrete inputs: the `ServeHTTP` insertion
of the two-byte index file respects the 100-byte limit; the static
handler inserts the six-byte error page into the size-1-limited sample
cache. -/
theorem cacheInsertionPolicy_example :
    ((∃ e0, rawFind ([] : CacheState) "/r/index.html".data = some e0 ∧
        ("hi".data : Str) = e0.item.content) ∨
      ((("hi".data : Str).length : Int) ≤ sampleServerBig.settings.cacheMaxFileSize)) ∧
    (staticHTMLPageErrorHandler sampleFs 0 sampleServer [] sampleReq 404).2 =
      cacheSet [] 0 (goJoin sampleServer.settings.filesRoot sampleServer.settings.errorFileName)
        sampleServer.settings.cacheTTL
        { modifiedTime := 0, content := "abcdef".data, pos := 0 } := by
  constructor
  · have h := cacheInsertionPolicy.1 sampleFsRoot 0 sampleServerBig []
      { method := methodGet, path := "/".data, accept := [] } "/r/index.html".data
      { item := { modifiedTime := 3, content := "hi".data, pos := 2 }, expiration := 100 }
      (by decide)
    exact h
  · have h := cacheInsertionPolicy.2 sampleFs 0 sampleServer [] sampleReq 404
      { isDir := false, isRegular := true, modTime := 7, content := "abcdef".data }
      (by decide) (by decide) (by decide) (by decide) (by decide) (by decide)
    exact h

/-- C3: evaluated at the failing input. The error page is loaded from
disk and cached by a first 404 (its cached `bytes.Reader` at position
0); a second 404 reads the cached entry and serves the full six-byte
page, leaving the one shared cursor at end-of-file; a third 404 then
reads the same cached entry and serves an empty body — the cached
reader is shared, not fresh per request, so one request's consumption
changes what a later read of the same entry returns. -/
theorem c3_bug :
    (staticHTMLPageErrorHandler sampleFs 0 sampleServer
        (staticHTMLPageErrorHandler sampleFs 0 sampleServer [] sampleReq 404).2
        sampleReq 404).1 =
      some (.page 404 htmlContentType ("abcdef".data)) ∧
    (staticHTMLPageErrorHandler sampleFs 0 sampleServer
        (staticHTMLPageErrorHandler sampleFs 0 sampleServer
          (staticHTMLPageErrorHandler sampleFs 0 sampleServer [] sampleReq 404).2
          sampleReq 404).2
        sampleReq 404).1 =
      some (.page 404 htmlContentType []) ∧
    some (HttpResponse.page 404 htmlContentType ("abcdef".data)) ≠
      some (.page 404 htmlContentType []) := by
  refine ⟨by decide, by decide, by decide⟩

end GoSimpleFileserver
